import Mathlib

/-!
Shallow embedding of the pfs-android JNI bridge (src/rust/src/lib.rs) over the
external pf8 archive engine, together with spec-modelled fragments of the engine
where the bridge's contract depends on engine behaviour that is not part of this
repository's sources.

Modelling conventions:
  * `jboolean` is modelled as `Bool` (1 = true, 0 = false), `jstring` results as
    `Option String` (null = none), `jlong` token handles as `Nat`.
  * A JNI string conversion (`jstring_to_string`) either succeeds with a Rust
    `String` or fails with an error message; we model its outcome as
    `Except String String` and pass it as an input to each bridge function.
  * Engine calls (`pf8::create_from_dir`, `pf8::extract`, `Pf8Reader::open`, ...)
    are external; each bridge function receives them as oracle functions.
  * Side effects (engine invocations, thrown Java exceptions, host callback
    invocations) are recorded in an ordered effect trace returned alongside the
    function's return value.
-/

/-- Error kinds of the pf8 engine as observed by the bridge (§7 of the spec):
`notFound`, `corrupt`, `io`, and `cancelled`.  Only the `Cancelled` constructor is
matched on by the bridge; the rest are displayed through the engine's opaque
`Display` implementation, which we abstract as a function argument `disp`. -/
inductive EngineError where
  | notFound : EngineError
  | corrupt : EngineError
  | io : String → EngineError
  | cancelled : EngineError
deriving DecidableEq, Repr

/-- Entry metadata exposed by `Pf8Reader::entries()`: the entry's container
internal path (as displayed by `entry.path().display()`) and its payload size
(`entry.size()`, a u64, hence a natural number). -/
structure EntryInfo where
  path : String
  size : Nat
deriving DecidableEq, Repr

/-- Observable side effects of a bridge call, in program order: an engine
invocation (create / extract / open / extract-with-progress) or a thrown Java
exception with its class and message. -/
inductive Effect where
  | engineCreate : String → String → Option (List String) → Effect
  | engineExtract : String → String → Option (List String) → Effect
  | engineOpen : String → Effect
  | engineExtractProgress : String → Effect
  | throwExn : String → String → Effect
deriving DecidableEq, Repr

/-- Class name used by `throw_exception` for every exception the bridge throws. -/
def runtimeExceptionClass : String := "java/lang/RuntimeException"

/-- Effects that extract or write data; used to state that `validateArchive`
performs no extraction and writes nothing. -/
def isWriteEffect : Effect → Bool
  | .engineCreate _ _ _ => true
  | .engineExtract _ _ _ => true
  | .engineExtractProgress _ => true
  | .engineOpen _ => false
  | .throwExn _ _ => false

/-- Discriminator for `Except` success, used to state boolean-valued claims
without existential quantifiers. -/
def exceptIsOk : Except ε α → Bool
  | .ok _ => true
  | .error _ => false

/-- Character for a single decimal digit value (0..9). -/
def digitChar (n : Nat) : Char := Char.ofNat (48 + n)

/-- Accumulator-style decimal rendering of a natural number, embedding the
standard `Display` implementation for unsigned integers used by `format!` in
`listArchive` (most significant digit first, no leading zeros).  The first
argument is recursion fuel; any fuel at least the number being rendered
suffices, since dividing by ten at least halves a positive number. -/
def natDecimalAux : Nat → Nat → List Char → List Char
  | _, 0, acc => acc
  | 0, _ + 1, acc => acc
  | fuel + 1, n + 1, acc => natDecimalAux fuel ((n + 1) / 10) (digitChar ((n + 1) % 10) :: acc)

/-- Decimal digit string of a natural number. -/
def natDecimal (n : Nat) : List Char :=
  if n = 0 then ['0'] else natDecimalAux n n []

/-- String form of `natDecimal`. -/
def natDecimalStr (n : Nat) : String := String.mk (natDecimal n)

/-- JSON fragment produced for one entry by `listArchive`:
`format!("\x7b\"name\":\"..\",\"size\":..\x7d", path, size)`.  Note the source
performs no JSON escaping on the path. -/
def entryJson (e : EntryInfo) : String :=
  "\x7b\"name\":\"" ++ e.path ++ "\",\"size\":" ++ natDecimalStr e.size ++ "\x7d"

/-- Embedding of `Vec::join` on strings, as used by `entries.join(",")`. -/
def joinSep (sep : String) : List String → String
  | [] => ""
  | [s] => s
  | s :: rest => s ++ sep ++ joinSep sep rest

/-- JSON document produced by `listArchive`: the entry fragments joined with
commas and wrapped in square brackets, in `reader.entries()` order. -/
def listJson (entries : List EntryInfo) : String :=
  "[" ++ joinSep "," (entries.map entryJson) ++ "]"

/-- Embedding of `Java_top_sakari_pfs_Pf8Native_createArchive`: convert both
strings (throw and return false on failure), then call `pf8::create_from_dir`
(throw "Failed to create archive: .." and return false on engine error). -/
def createArchive (inputDir outputPath : Except String String)
    (engineCreateFromDir : String → String → Except EngineError Unit)
    (disp : EngineError → String) : Bool × List Effect :=
  match inputDir with
  | .error e => (false, [.throwExn runtimeExceptionClass e])
  | .ok i =>
    match outputPath with
    | .error e => (false, [.throwExn runtimeExceptionClass e])
    | .ok o =>
      match engineCreateFromDir i o with
      | .ok _ => (true, [.engineCreate i o none])
      | .error e =>
        (false, [.engineCreate i o none,
                 .throwExn runtimeExceptionClass ("Failed to create archive: " ++ disp e)])

/-- Embedding of `Java_top_sakari_pfs_Pf8Native_createArchiveWithPatterns`:
convert both strings and the pattern array, then call
`pf8::create_from_dir_with_patterns`. -/
def createArchiveWithPatterns (inputDir outputPath : Except String String)
    (patterns : Except String (List String))
    (engineCreateWithPatterns : String → String → List String → Except EngineError Unit)
    (disp : EngineError → String) : Bool × List Effect :=
  match inputDir with
  | .error e => (false, [.throwExn runtimeExceptionClass e])
  | .ok i =>
    match outputPath with
    | .error e => (false, [.throwExn runtimeExceptionClass e])
    | .ok o =>
      match patterns with
      | .error e => (false, [.throwExn runtimeExceptionClass e])
      | .ok ps =>
        match engineCreateWithPatterns i o ps with
        | .ok _ => (true, [.engineCreate i o (some ps)])
        | .error e =>
          (false, [.engineCreate i o (some ps),
                   .throwExn runtimeExceptionClass
                     ("Failed to create archive with patterns: " ++ disp e)])

/-- Embedding of `Java_top_sakari_pfs_Pf8Native_extractArchive`. -/
def extractArchive (archivePath outputDir : Except String String)
    (engineExtract : String → String → Except EngineError Unit)
    (disp : EngineError → String) : Bool × List Effect :=
  match archivePath with
  | .error e => (false, [.throwExn runtimeExceptionClass e])
  | .ok a =>
    match outputDir with
    | .error e => (false, [.throwExn runtimeExceptionClass e])
    | .ok o =>
      match engineExtract a o with
      | .ok _ => (true, [.engineExtract a o none])
      | .error e =>
        (false, [.engineExtract a o none,
                 .throwExn runtimeExceptionClass ("Failed to extract archive: " ++ disp e)])

/-- Embedding of `Java_top_sakari_pfs_Pf8Native_extractArchiveWithPatterns`. -/
def extractArchiveWithPatterns (archivePath outputDir : Except String String)
    (patterns : Except String (List String))
    (engineExtractWithPatterns : String → String → List String → Except EngineError Unit)
    (disp : EngineError → String) : Bool × List Effect :=
  match archivePath with
  | .error e => (false, [.throwExn runtimeExceptionClass e])
  | .ok a =>
    match outputDir with
    | .error e => (false, [.throwExn runtimeExceptionClass e])
    | .ok o =>
      match patterns with
      | .error e => (false, [.throwExn runtimeExceptionClass e])
      | .ok ps =>
        match engineExtractWithPatterns a o ps with
        | .ok _ => (true, [.engineExtract a o (some ps)])
        | .error e =>
          (false, [.engineExtract a o (some ps),
                   .throwExn runtimeExceptionClass
                     ("Failed to extract archive with patterns: " ++ disp e)])

/-- Embedding of `Java_top_sakari_pfs_Pf8Native_listArchive`: convert the path,
open the reader (throw "Failed to read archive: .." on failure), render the JSON
list, and build the Java string (throw "Failed to create Java string: .." and
return null when `env.new_string` fails).  `newString` is the JNI string
constructor oracle. -/
def listArchive (archivePath : Except String String)
    (engineOpen : String → Except EngineError (List EntryInfo))
    (newString : String → Except String Unit)
    (disp : EngineError → String) : Option String × List Effect :=
  match archivePath with
  | .error e => (none, [.throwExn runtimeExceptionClass e])
  | .ok p =>
    match engineOpen p with
    | .ok entries =>
      match newString (listJson entries) with
      | .ok _ => (some (listJson entries), [.engineOpen p])
      | .error e =>
        (none, [.engineOpen p,
                .throwExn runtimeExceptionClass ("Failed to create Java string: " ++ e)])
    | .error e =>
      (none, [.engineOpen p,
              .throwExn runtimeExceptionClass ("Failed to read archive: " ++ disp e)])

/-- Embedding of `Java_top_sakari_pfs_Pf8Native_validateArchive`: convert the
path (returning false silently on failure), then try `Pf8Reader::open`,
returning true exactly on success.  No exception is ever thrown and no
extraction is performed. -/
def validateArchive (archivePath : Except String String)
    (engineOpen : String → Except EngineError (List EntryInfo)) : Bool × List Effect :=
  match archivePath with
  | .error _ => (false, [])
  | .ok p =>
    match engineOpen p with
    | .ok _ => (true, [.engineOpen p])
    | .error _ => (false, [.engineOpen p])

/-- Heap of live cancellation tokens: a token handle (the `jlong` value of the
raw `Box<Arc<Mutex<bool>>>` pointer, always nonzero for a live token) maps to
the boolean stored in its cell; unallocated handles map to `none`. -/
def TokenHeap : Type := Nat → Option Bool

/-- Embedding of `Java_top_sakari_pfs_Pf8Native_createCancellationToken`:
allocates a fresh cell holding `false` and returns its handle.  The fresh
address chosen by the allocator is passed in explicitly; `Box::into_raw` never
returns an address of another live allocation, which theorems express as a
freshness hypothesis where needed. -/
def createCancellationToken (fresh : Nat) (heap : TokenHeap) : Nat × TokenHeap :=
  (fresh, fun k => if k = fresh then some false else heap k)

/-- Embedding of `Java_top_sakari_pfs_Pf8Native_cancelOperation`: a zero handle
returns immediately with no effect; otherwise the token's cell is locked and set
to `true` (the lock is modelled as always succeeding: poisoning requires a
panicked holder, outside this embedding). -/
def cancelOperation (h : Nat) (heap : TokenHeap) : TokenHeap :=
  if h = 0 then heap
  else fun k => if k = h then (heap k).map (fun _ => true) else heap k

/-- Embedding of `Java_top_sakari_pfs_Pf8Native_freeCancellationToken`: a zero
handle returns immediately with no effect; otherwise the cell is deallocated. -/
def freeCancellationToken (h : Nat) (heap : TokenHeap) : TokenHeap :=
  if h = 0 then heap
  else fun k => if k = h then none else heap k

/-- Source of the boolean read by a `JavaProgressCallback` checkpoint: either
the private `Arc::new(Mutex::new(false))` cell created by
`JavaProgressCallback::new` (never shared with any token handle, hence never
written by `cancelOperation`), or the shared cell of the token handle installed
by `extractArchiveWithCallback` when `token_handle != 0`. -/
inductive FlagSource where
  | fresh : FlagSource
  | token : Nat → FlagSource
deriving DecidableEq, Repr

/-- Value observed when a checkpoint locks and reads its cancellation cell: the
private fresh cell always holds `false` (it is initialized to `false` and no
bridge operation can reach it), a token cell holds whatever the heap stores. -/
def observeFlag : FlagSource → TokenHeap → Bool
  | .fresh, _ => false
  | .token h, heap => (heap h).getD false

/-- Bridge operations that touch the token heap, for stating monotonicity of
the cancellation flag over arbitrary operation sequences. -/
inductive TokenOp where
  | create : Nat → TokenOp
  | cancel : Nat → TokenOp
  | free : Nat → TokenOp
deriving DecidableEq, Repr

/-- Heap transformer of one token-heap operation. -/
def applyTokenOp : TokenOp → TokenHeap → TokenHeap
  | .create fresh, heap => (createCancellationToken fresh heap).2
  | .cancel h, heap => cancelOperation h heap
  | .free h, heap => freeCancellationToken h heap

/-- Heap transformer of a sequence of token-heap operations, first op first. -/
def applyTokenOps (ops : List TokenOp) (heap : TokenHeap) : TokenHeap :=
  ops.foldl (fun h op => applyTokenOp op h) heap

/-- JNI environment behaviour relevant to one checkpoint dispatch: whether
`attach_current_thread` succeeds, whether the first `env.new_string` succeeds,
whether the fallback `env.new_string("")` succeeds (the source unwraps this
fallback, so its failure panics), and whether the host callback method throws
(its outcome is discarded by `let _ = ...`, so the checkpoint result never
depends on it). -/
structure JniEnv where
  attachOk : Bool
  newStringOk : Bool
  fallbackStringOk : Bool
  hostCallThrows : Bool
deriving DecidableEq, Repr

/-- Snapshot argument of `JavaProgressCallback::on_progress`
(`pf8::ProgressInfo`). -/
structure ProgressInfo where
  current_file : String
  current_file_index : Nat
  total_files : Nat
  current_file_bytes : Nat
  current_file_total : Nat
  total_bytes_processed : Nat
  total_bytes : Nat
deriving DecidableEq, Repr

instance [DecidableEq ε] [DecidableEq α] : DecidableEq (Except ε α) := fun a b =>
  match a, b with
  | .ok x, .ok y => if h : x = y then .isTrue (by rw [h]) else .isFalse (by simp [h])
  | .ok _, .error _ => .isFalse (by simp)
  | .error _, .ok _ => .isFalse (by simp)
  | .error x, .error y => if h : x = y then .isTrue (by rw [h]) else .isFalse (by simp [h])

/-- Control outcome of one checkpoint dispatch: either the method returns a
`pf8::Result<()>` to the engine, or it panics — which happens exactly when the
fallback `env.new_string("").unwrap()` fails (lib.rs lines 356-357, 392-393,
423-424). -/
inductive CheckpointResult where
  | returns : Except EngineError Unit → CheckpointResult
  | panics : CheckpointResult
deriving DecidableEq, Repr

/-- Outcome of one checkpoint dispatch: the control outcome, and the host
method invoked (name and string argument), if any. -/
structure CheckpointOut where
  result : CheckpointResult
  hostCall : Option (String × String)
deriving DecidableEq, Repr

/-- Embedding of `JavaProgressCallback::on_progress`: return `Err(Cancelled)`
if the cancellation cell holds true; otherwise attach the thread (silently
returning `Ok(())` on failure), build the file-name string — on failure falling
back to `env.new_string("").unwrap()`, which panics when the fallback fails
too — then invoke `onProgress` discarding its outcome and return `Ok(())`. -/
def on_progress (cancelled : Bool) (env : JniEnv) (info : ProgressInfo) : CheckpointOut :=
  if cancelled then ⟨.returns (.error .cancelled), none⟩
  else if !env.attachOk then ⟨.returns (.ok ()), none⟩
  else if env.newStringOk then ⟨.returns (.ok ()), some ("onProgress", info.current_file)⟩
  else if env.fallbackStringOk then ⟨.returns (.ok ()), some ("onProgress", "")⟩
  else ⟨.panics, none⟩

/-- Embedding of `JavaProgressCallback::on_file_start` (same checkpoint shape,
invoking `onFileStart` with the entry path). -/
def on_file_start (cancelled : Bool) (env : JniEnv) (path : String)
    (_file_index _total_files : Nat) : CheckpointOut :=
  if cancelled then ⟨.returns (.error .cancelled), none⟩
  else if !env.attachOk then ⟨.returns (.ok ()), none⟩
  else if env.newStringOk then ⟨.returns (.ok ()), some ("onFileStart", path)⟩
  else if env.fallbackStringOk then ⟨.returns (.ok ()), some ("onFileStart", "")⟩
  else ⟨.panics, none⟩

/-- Embedding of `JavaProgressCallback::on_file_complete` (same checkpoint
shape, invoking `onFileComplete` with the entry path). -/
def on_file_complete (cancelled : Bool) (env : JniEnv) (path : String)
    (_file_index : Nat) : CheckpointOut :=
  if cancelled then ⟨.returns (.error .cancelled), none⟩
  else if !env.attachOk then ⟨.returns (.ok ()), none⟩
  else if env.newStringOk then ⟨.returns (.ok ()), some ("onFileComplete", path)⟩
  else if env.fallbackStringOk then ⟨.returns (.ok ()), some ("onFileComplete", "")⟩
  else ⟨.panics, none⟩

/-- Outcome of `extractArchiveWithCallback`: the jboolean return value, the
effect trace, and the flag source wired into the `JavaProgressCallback` (none if
construction never completed). -/
structure ExtractWCOut where
  ret : Bool
  effects : List Effect
  flagSource : Option FlagSource
deriving DecidableEq, Repr

/-- Embedding of `Java_top_sakari_pfs_Pf8Native_extractArchiveWithCallback`:
convert both strings, construct the `JavaProgressCallback` (private fresh flag
initialized to false), replace its flag with the shared token cell when
`token_handle != 0`, open the archive (throw "Failed to open archive: .." on
failure), and run `extract_all_with_progress`; on engine error the thrown
message is exactly "Operation cancelled" for `Error::Cancelled` and
"Failed to extract archive: .." otherwise.  `run` is the engine oracle for
`extract_all_with_progress`, given the callback's flag source and the output
directory. -/
def extractArchiveWithCallback (archivePath outputDir : Except String String)
    (cbNew : Except String Unit) (tokenHandle : Nat)
    (engineOpen : String → Except EngineError (List EntryInfo))
    (run : FlagSource → String → Except EngineError Unit)
    (disp : EngineError → String) : ExtractWCOut :=
  match archivePath with
  | .error e => ⟨false, [.throwExn runtimeExceptionClass e], none⟩
  | .ok a =>
    match outputDir with
    | .error e => ⟨false, [.throwExn runtimeExceptionClass e], none⟩
    | .ok o =>
      match cbNew with
      | .error e => ⟨false, [.throwExn runtimeExceptionClass e], none⟩
      | .ok _ =>
        let src : FlagSource := if tokenHandle = 0 then .fresh else .token tokenHandle
        match engineOpen a with
        | .ok _ =>
          match run src o with
          | .ok _ => ⟨true, [.engineOpen a, .engineExtractProgress o], some src⟩
          | .error .cancelled =>
            ⟨false, [.engineOpen a, .engineExtractProgress o,
                     .throwExn runtimeExceptionClass "Operation cancelled"], some src⟩
          | .error e =>
            ⟨false, [.engineOpen a, .engineExtractProgress o,
                     .throwExn runtimeExceptionClass
                       ("Failed to extract archive: " ++ disp e)], some src⟩
        | .error e =>
          ⟨false, [.engineOpen a,
                   .throwExn runtimeExceptionClass ("Failed to open archive: " ++ disp e)],
           some src⟩

/-- Whitespace characters permitted between JSON tokens (RFC 8259). -/
def isWsCh (c : Char) : Bool := c = ' ' || c = '\t' || c = '\n' || c = '\r'

/-- Skipping of insignificant whitespace before a JSON token. -/
def skipWs : List Char → List Char
  | [] => []
  | c :: r => if isWsCh c then skipWs r else c :: r

/-- Decimal digit test. -/
def isDigitCh (c : Char) : Bool := '0' ≤ c && c ≤ '9'

/-- Hexadecimal digit test, for JSON unicode escapes. -/
def isHexDigitCh (c : Char) : Bool :=
  isDigitCh c || ('a' ≤ c && c ≤ 'f') || ('A' ≤ c && c ≤ 'F')

/-- Single-character JSON escapes. -/
def jsonEscCh (c : Char) : Bool :=
  c = '"' || c = '\\' || c = '/' || c = 'b' || c = 'f' || c = 'n' || c = 'r' || c = 't'

/-- Characters allowed unescaped inside a JSON string literal: anything except
the quote, the backslash and control characters. -/
def jsonPlainChar (c : Char) : Bool := decide (32 ≤ c.val) && c ≠ '"' && c ≠ '\\'

/-- Consumption of the remainder of a JSON string literal, the opening quote
already consumed; returns the input after the closing quote. -/
def jsonStrRest : List Char → Option (List Char)
  | [] => none
  | c :: rest =>
    if c = '"' then some rest
    else if c = '\\' then
      match rest with
      | 'u' :: a :: b :: c :: d :: rest' =>
        if isHexDigitCh a && isHexDigitCh b && isHexDigitCh c && isHexDigitCh d then
          jsonStrRest rest'
        else none
      | e :: rest' => if jsonEscCh e then jsonStrRest rest' else none
      | [] => none
    else if jsonPlainChar c then jsonStrRest rest else none

/-- Consumption of a maximal run of decimal digits. -/
def dropDigits : List Char → List Char
  | [] => []
  | c :: rest => if isDigitCh c then dropDigits rest else c :: rest

/-- Consumption of one or more decimal digits. -/
def digits1 : List Char → Option (List Char)
  | [] => none
  | c :: rest => if isDigitCh c then some (dropDigits rest) else none

/-- Consumption of a JSON integer part: a lone zero, or a nonzero digit
followed by any further digits. -/
def jsonIntRest : List Char → Option (List Char)
  | [] => none
  | c :: rest =>
    if c = '0' then some rest
    else if isDigitCh c then some (dropDigits rest)
    else none

/-- Consumption of an optional JSON fraction part. -/
def jsonFracRest : List Char → Option (List Char)
  | [] => some []
  | c :: rest => if c = '.' then digits1 rest else some (c :: rest)

/-- Consumption of an optional JSON exponent part. -/
def jsonExpRest : List Char → Option (List Char)
  | c :: rest =>
    if c = 'e' || c = 'E' then
      match rest with
      | s :: rest' => if s = '+' || s = '-' then digits1 rest' else digits1 rest
      | [] => none
    else some (c :: rest)
  | [] => some []

/-- Consumption of a JSON number after an optional leading minus sign. -/
def jsonNumTail (l : List Char) : Option (List Char) :=
  (jsonIntRest l).bind fun r1 => (jsonFracRest r1).bind jsonExpRest

/-- Consumption of an exact literal such as `rue`, `alse`, `ull`. -/
def jsonLit : List Char → List Char → Option (List Char)
  | [], l => some l
  | c :: cs, d :: l => if c = d then jsonLit cs l else none
  | _ :: _, [] => none

/-- Loop over the elements of a JSON array or the members of a JSON object: one
item has already been detected; parse it with `parseItem`, then after optional
whitespace expect either a comma (and repeat) or the closing character.  The
fuel bounds the number of items; the caller supplies at least the input length,
and each iteration consumes at least the separating comma. -/
def jsonItemsRest (parseItem : List Char → Option (List Char)) :
    Nat → Char → List Char → Option (List Char)
  | 0, _, _ => none
  | n + 1, close, l =>
    (parseItem l).bind fun r =>
      match skipWs r with
      | c :: r' =>
        if c = ',' then jsonItemsRest parseItem n close r'
        else if c = close then some r'
        else none
      | [] => none

/-- Parsing of one JSON object member `"name" : value`, with `parseV` supplied
for the value. -/
def jsonMemberRest (parseV : List Char → Option (List Char)) (l : List Char) :
    Option (List Char) :=
  match skipWs l with
  | '"' :: r =>
    (jsonStrRest r).bind fun r1 =>
      match skipWs r1 with
      | ':' :: r2 => parseV r2
      | _ => none
  | _ => none

/-- Recursive-descent consumption of one JSON value; the fuel bounds the
nesting depth (each nesting level consumes at least one bracket character, so
the input length suffices as fuel). -/
def jsonValueRest : Nat → List Char → Option (List Char)
  | 0, _ => none
  | d + 1, l =>
    match skipWs l with
    | [] => none
    | c :: r =>
      if c = '"' then jsonStrRest r
      else if c = '[' then
        match skipWs r with
        | ']' :: r' => some r'
        | r' => jsonItemsRest (fun s => jsonValueRest d s) (r'.length + 1) ']' r'
      else if c = '\x7b' then
        match skipWs r with
        | '\x7d' :: r' => some r'
        | r' =>
          jsonItemsRest (jsonMemberRest (fun s => jsonValueRest d s)) (r'.length + 1) '\x7d' r'
      else if c = '-' then jsonNumTail r
      else if isDigitCh c then jsonNumTail (c :: r)
      else if c = 't' then jsonLit ['r', 'u', 'e'] r
      else if c = 'f' then jsonLit ['a', 'l', 's', 'e'] r
      else if c = 'n' then jsonLit ['u', 'l', 'l'] r
      else none

/-- Validity of a string as a JSON document (RFC 8259): a single JSON value
surrounded by optional whitespace, consuming the entire input. -/
def isValidJson (s : String) : Bool :=
  match jsonValueRest (s.data.length + 1) s.data with
  | some r => decide (skipWs r = [])
  | none => false

/-- Modelled from the spec: the pf8 pattern matcher (§4.4), which is not part of
this repository's sources.  Glob matching over slash-normalized relative paths:
a star matches any run of characters except the slash, a double star matches
any run including slashes, a question mark matches one character, and every
other character matches itself; matching is case-sensitive. -/
def globMatch : List Char → List Char → Bool
  | [], [] => true
  | [], _ :: _ => false
  | '*' :: '*' :: ps, s =>
    globMatch ps s ||
      match s with
      | [] => false
      | _ :: s' => globMatch ('*' :: '*' :: ps) s'
  | '*' :: ps, s =>
    globMatch ps s ||
      match s with
      | [] => false
      | c :: s' => if c = '/' then false else globMatch ('*' :: ps) s'
  | '?' :: ps, s =>
    match s with
    | [] => false
    | _ :: s' => globMatch ps s'
  | p :: ps, s =>
    match s with
    | [] => false
    | c :: s' => p = c && globMatch ps s'
termination_by ps s => (s.length, ps.length)

/-- Modelled from the spec: a path is included iff it matches at least one
supplied pattern (§4.4). -/
def matchesAny (patterns : List String) (path : String) : Bool :=
  patterns.any fun p => globMatch p.data path.data

/-- One regular file of a source directory tree: its slash-normalized relative
path and its content bytes. -/
structure SrcFile where
  path : String
  content : List Nat
deriving DecidableEq, Repr

/-- Modelled from the spec: the subset of files selected by an explicit pattern
list (§4.4); an empty list therefore selects nothing. -/
def selectByPatterns (patterns : List String) (files : List SrcFile) : List SrcFile :=
  files.filter fun f => matchesAny patterns f.path

/-- One record of the container's entry table (§3): entry path, payload size,
and payload offset within the data region. -/
structure TableEntry where
  path : String
  size : Nat
  offset : Nat
deriving DecidableEq, Repr

/-- Modelled from the spec: building the entry table assigns each entry the
offset obtained by summing the sizes of all preceding entries, in insertion
order (§4.1). -/
def buildTable (off : Nat) : List SrcFile → List TableEntry
  | [] => []
  | f :: fs => ⟨f.path, f.content.length, off⟩ :: buildTable (off + f.content.length) fs

/-- Logical container layout (§3): the parsed entry table and the data region
holding each entry's raw bytes contiguously, in entry-table order. -/
structure Container where
  table : List TableEntry
  data : List Nat
deriving DecidableEq, Repr

/-- Modelled from the spec: the deterministic order into which the writer sorts
the collected relative paths (§4.3).  The round-trip property holds for any
sort key, so the comparison is lexicographic on the path string. -/
def sortFiles (files : List SrcFile) : List SrcFile :=
  files.mergeSort fun a b => decide (a.path ≤ b.path)

/-- Modelled from the spec: `pf8::create_from_dir` (§4.3) — collect every
regular file of the tree, sort into deterministic order, build the entry table,
and write header, table and concatenated file bytes. -/
def createFromDir (files : List SrcFile) : Container :=
  ⟨buildTable 0 (sortFiles files), ((sortFiles files).map SrcFile.content).flatten⟩

/-- Modelled from the spec: `pf8::create_from_dir_with_patterns` (§4.3) — as
`createFromDir`, including only files whose relative path matches a pattern. -/
def createFromDirWithPatterns (patterns : List String) (files : List SrcFile) : Container :=
  createFromDir (selectByPatterns patterns files)

/-- Modelled from the spec: payload bytes of one entry, read from the
container's data region (§4.2) — exactly `size` bytes starting at `offset`. -/
def readEntryData (c : Container) (e : TableEntry) : List Nat :=
  (c.data.drop e.offset).take e.size

/-- Modelled from the spec: `pf8::extract` (§4.2) — for each entry of the
table, in order, write exactly its payload bytes to a file at its entry path
under the destination directory. -/
def extractAllFiles (c : Container) : List SrcFile :=
  c.table.map fun e => ⟨e.path, readEntryData c e⟩

/-- Triple of relative path, content and size describing one extracted or
source file, as in the round-trip property (§8). -/
def fileTriple (f : SrcFile) : String × List Nat × Nat :=
  (f.path, f.content, f.content.length)

/-- Strings whose characters all may appear unescaped in a JSON string literal. -/
def jsonSafeString (s : String) : Bool := s.data.all jsonPlainChar

/-- Character-list counterpart of `joinSep ","`, convenient for parsing
lemmas. -/
def joinChunks : List (List Char) → List Char
  | [] => []
  | [c] => c
  | c :: cs => c ++ ',' :: joinChunks cs

/-- Lists whose head is absent or not a decimal digit (nor a fraction or
exponent marker); a greedy JSON number parse stops exactly at such a list. -/
def numBoundary : List Char → Bool
  | [] => true
  | c :: _ => !(isDigitCh c || c = '.' || c = 'e' || c = 'E')

/-- Lists whose head is a comma or the given closing bracket: the shapes of
every suffix fed to an item parse inside a JSON array or object. -/
def sepOrClose (close : Char) : List Char → Bool
  | [] => false
  | h :: _ => h = ',' || h = close

/-- C1 counterexample: with the cancellation flag clear, a JNI environment in
which the Java string construction and its empty-string fallback both fail
makes the checkpoint panic in the fallback unwrap instead of returning
`Ok(())`. -/
theorem checkpoint_flag_clear_can_panic :
    (on_progress false ⟨true, false, false, false⟩ ⟨"f", 0, 1, 0, 0, 0, 0⟩).result = .panics
    ∧ ¬((on_progress false ⟨true, false, false, false⟩ ⟨"f", 0, 1, 0, 0, 0, 0⟩).result
        = .returns (.ok ())) :=
  ⟨rfl, by decide⟩

/-- C1 (amended): for every checkpoint call on the bridge's progress sink, if
the shared cancellation flag is set, the call returns `Err(Error::Cancelled)`
without invoking the host callback method, for every JNI environment; if the
flag is not set, the call returns `Ok(())` except in the JNI corner case where
the Java string construction and its empty-string fallback both fail, in which
case the fallback unwrap panics. -/
theorem progress_sink_checkpoint_gate (env : JniEnv) (info : ProgressInfo)
    (path : String) (i t : Nat) :
    ((on_progress true env info).result = .returns (.error .cancelled)
      ∧ (on_progress true env info).hostCall = none
      ∧ (on_file_start true env path i t).result = .returns (.error .cancelled)
      ∧ (on_file_start true env path i t).hostCall = none
      ∧ (on_file_complete true env path i).result = .returns (.error .cancelled)
      ∧ (on_file_complete true env path i).hostCall = none)
    ∧ (env.newStringOk = true ∨ env.fallbackStringOk = true ∨ env.attachOk = false →
        (on_progress false env info).result = .returns (.ok ())
        ∧ (on_file_start false env path i t).result = .returns (.ok ())
        ∧ (on_file_complete false env path i).result = .returns (.ok ())) := by
  constructor
  · simp [on_progress, on_file_start, on_file_complete]
  · intro h
    obtain ⟨a, n, f, hc⟩ := env
    cases a <;> cases n <;> cases f <;>
      simp_all [on_progress, on_file_start, on_file_complete]

/-- Concrete instantiation of `progress_sink_checkpoint_gate`: an environment
whose first string construction succeeds returns cancellation when the flag is
set and `Ok(())` when it is clear. -/
theorem progress_sink_checkpoint_gate_witness :
    (on_progress true ⟨true, true, true, false⟩ ⟨"f", 0, 1, 0, 0, 0, 0⟩).result
      = .returns (.error .cancelled)
    ∧ (on_progress false ⟨true, true, true, false⟩ ⟨"f", 0, 1, 0, 0, 0, 0⟩).result
      = .returns (.ok ()) := by
  have h := progress_sink_checkpoint_gate ⟨true, true, true, false⟩ ⟨"f", 0, 1, 0, 0, 0, 0⟩
    "p" 0 1
  exact ⟨h.1.1, (h.2 (Or.inl rfl)).1⟩

/-- C8 counterexample: with the cancellation flag clear, an environment in
which the Java string construction and its empty-string fallback both fail
(for example after a pending host exception) makes each of the three
checkpoint methods panic rather than return `Ok(())`. -/
theorem checkpoints_fallback_unwrap_panics :
    (on_progress false ⟨true, false, false, true⟩ ⟨"g", 1, 2, 3, 4, 5, 6⟩).result = .panics
    ∧ (on_file_start false ⟨true, false, false, true⟩ "p" 0 1).result = .panics
    ∧ (on_file_complete false ⟨true, false, false, true⟩ "p" 0).result = .panics :=
  ⟨rfl, rfl, rfl⟩

/-- C8 (amended): when the cancellation flag is not set, every checkpoint call
of `JavaProgressCallback` returns `Ok(())` — discarding thread-attach failure,
first string-construction failure, and any host callback outcome including a
thrown exception — except when the string construction and its empty-string
fallback both fail, where the fallback unwrap panics instead of failing the
operation gracefully. -/
theorem checkpoints_swallow_host_faults (attach newStr fallback hostThrows : Bool)
    (info : ProgressInfo) (path : String) (i t : Nat)
    (h : newStr = true ∨ fallback = true ∨ attach = false) :
    (on_progress false ⟨attach, newStr, fallback, hostThrows⟩ info).result
      = .returns (.ok ())
    ∧ (on_file_start false ⟨attach, newStr, fallback, hostThrows⟩ path i t).result
      = .returns (.ok ())
    ∧ (on_file_complete false ⟨attach, newStr, fallback, hostThrows⟩ path i).result
      = .returns (.ok ()) := by
  cases attach <;> cases newStr <;> cases fallback <;>
    simp_all [on_progress, on_file_start, on_file_complete]

/-- Concrete instantiation of `checkpoints_swallow_host_faults`: the first
string construction fails, the empty-string fallback succeeds, and the host
callback throws, yet all three checkpoints return `Ok(())`. -/
theorem checkpoints_swallow_host_faults_witness :
    (on_progress false ⟨true, false, true, true⟩ ⟨"f", 0, 1, 0, 0, 0, 0⟩).result
      = .returns (.ok ())
    ∧ (on_file_start false ⟨true, false, true, true⟩ "p" 0 1).result = .returns (.ok ())
    ∧ (on_file_complete false ⟨true, false, true, true⟩ "p" 0).result = .returns (.ok ()) :=
  checkpoints_swallow_host_faults true false true true ⟨"f", 0, 1, 0, 0, 0, 0⟩ "p" 0 1
    (Or.inr (Or.inl rfl))

/-- C2: for every archive path, `validateArchive` returns true exactly when
`Pf8Reader::open` on that path succeeds, and its effect trace contains no
extracting or writing effect. -/
theorem validateArchive_true_iff_open_ok (p : String)
    (engineOpen : String → Except EngineError (List EntryInfo)) :
    (validateArchive (.ok p) engineOpen).1 = exceptIsOk (engineOpen p)
    ∧ ((validateArchive (.ok p) engineOpen).2.all fun fx => !isWriteEffect fx) = true := by
  cases h : engineOpen p <;> simp [validateArchive, h, exceptIsOk, isWriteEffect]

/-- C9: a zero token handle is always safe at the public interface:
`cancelOperation` and `freeCancellationToken` are identities on the heap when
the handle is zero, `extractArchiveWithCallback` called with token handle zero
wires the callback to its fresh private flag, that flag reads false under
every heap, and a checkpoint reading it never returns `Err(Cancelled)` under
any JNI environment, so such an operation can never observe external
cancellation. -/
theorem zero_token_handle_safe (heap : TokenHeap) (p o : String)
    (engineOpen : String → Except EngineError (List EntryInfo))
    (run : FlagSource → String → Except EngineError Unit)
    (disp : EngineError → String) (env : JniEnv) (info : ProgressInfo) :
    cancelOperation 0 heap = heap
    ∧ freeCancellationToken 0 heap = heap
    ∧ (extractArchiveWithCallback (.ok p) (.ok o) (.ok ()) 0 engineOpen run disp).flagSource
        = some .fresh
    ∧ observeFlag .fresh heap = false
    ∧ ¬((on_progress (observeFlag .fresh heap) env info).result
        = .returns (.error .cancelled)) := by
  refine ⟨rfl, rfl, ?_, rfl, ?_⟩
  · cases h : engineOpen p with
    | error e => simp [extractArchiveWithCallback, h]
    | ok es =>
      cases h2 : run .fresh o with
      | ok u => simp [extractArchiveWithCallback, h, h2]
      | error e => cases e <;> simp [extractArchiveWithCallback, h, h2]
  · obtain ⟨a, n, f, hc⟩ := env
    cases a <;> cases n <;> cases f <;> simp [observeFlag, on_progress]

/-- Preservation of a cancelled flag across any sequence of token-heap
operations that neither frees nor re-allocates the cancelled handle. -/
theorem applyTokenOps_preserves_true (k : Nat) :
    ∀ (ops : List TokenOp) (heap : TokenHeap),
      heap k = some true →
      (∀ op ∈ ops, op ≠ .free k ∧ op ≠ .create k) →
      applyTokenOps ops heap k = some true := by
  intro ops
  induction ops with
  | nil => intro heap hk _; exact hk
  | cons op rest ih =>
    intro heap hk hav
    have hop := hav op (List.mem_cons_self op rest)
    have hstep : applyTokenOp op heap k = some true := by
      cases op with
      | create f =>
        have hfk : ¬(k = f) := by
          intro h
          exact hop.2 (by rw [h])
        simp [applyTokenOp, createCancellationToken, hfk, hk]
      | cancel h =>
        by_cases h0 : h = 0
        · simp [applyTokenOp, cancelOperation, h0, hk]
        · by_cases hkh : k = h
          · have hkt : heap h = some true := hkh ▸ hk
            simp [applyTokenOp, cancelOperation, h0, hkh, hkt]
          · simp [applyTokenOp, cancelOperation, h0, hkh, hk]
      | free h =>
        have hh : ¬(k = h) := by
          intro heq
          exact hop.1 (by rw [heq])
        have h0 : h ≠ 0 ∨ h = 0 := Or.symm (em (h = 0))
        by_cases hz : h = 0
        · simp [applyTokenOp, freeCancellationToken, hz, hk]
        · simp [applyTokenOp, freeCancellationToken, hz, hh, hk]
    have : applyTokenOps (op :: rest) heap = applyTokenOps rest (applyTokenOp op heap) := by
      simp [applyTokenOps]
    rw [this]
    exact ih _ hstep (fun op' h' => hav op' (List.mem_cons_of_mem _ h'))

/-- C10: the cancellation flag is monotone: a freshly created token's flag is
false, `cancelOperation` sets a live nonzero token's flag to true and preserves
any flag already true, and across any sequence of bridge token operations that
neither frees nor re-allocates a cancelled handle the flag stays true, so every
subsequent checkpoint reading that token observes cancellation. -/
theorem cancellation_flag_monotone (fresh h k : Nat) (heap : TokenHeap) (b : Bool)
    (ops : List TokenOp) (env : JniEnv) (info : ProgressInfo)
    (hnz : h ≠ 0) (hlive : heap h = some b)
    (hcancelled : heap k = some true)
    (havoid : ∀ op ∈ ops, op ≠ .free k ∧ op ≠ .create k) :
    (createCancellationToken fresh heap).2 fresh = some false
    ∧ cancelOperation h heap h = some true
    ∧ (∀ j, heap j = some true → cancelOperation h heap j = some true)
    ∧ applyTokenOps ops heap k = some true
    ∧ (on_progress (observeFlag (.token k) (applyTokenOps ops heap)) env info).result
        = .returns (.error .cancelled) := by
  have hfinal : applyTokenOps ops heap k = some true :=
    applyTokenOps_preserves_true k ops heap hcancelled havoid
  refine ⟨by simp [createCancellationToken], ?_, ?_, hfinal, ?_⟩
  · simp [cancelOperation, hnz, hlive]
  · intro j hj
    by_cases hz : h = 0
    · simp [cancelOperation, hz, hj]
    · by_cases hjh : j = h
      · have hjt : heap h = some true := hjh ▸ hj
        simp [cancelOperation, hz, hjh, hjt]
      · simp [cancelOperation, hz, hjh, hj]
  · have : observeFlag (.token k) (applyTokenOps ops heap) = true := by
      simp [observeFlag, hfinal]
    rw [this]
    rfl

/-- Concrete instantiation of `cancellation_flag_monotone`: handle 1 cancelled
in a two-token heap, followed by a cancel of another token and a fresh
allocation, still observes cancellation. -/
theorem cancellation_flag_monotone_witness :
    (createCancellationToken 2 (fun j => if j = 1 then some true else none)).2 2 = some false
    ∧ cancelOperation 1 (fun j => if j = 1 then some true else none) 1 = some true
    ∧ applyTokenOps [.cancel 3, .create 4] (fun j => if j = 1 then some true else none) 1
        = some true
    ∧ (on_progress
        (observeFlag (.token 1)
          (applyTokenOps [.cancel 3, .create 4] (fun j => if j = 1 then some true else none)))
        ⟨true, true, true, false⟩ ⟨"f", 0, 1, 0, 0, 0, 0⟩).result
      = .returns (.error .cancelled) := by
  have h := cancellation_flag_monotone 2 1 1 (fun j => if j = 1 then some true else none) true
    [.cancel 3, .create 4] ⟨true, true, true, false⟩ ⟨"f", 0, 1, 0, 0, 0, 0⟩
    (by decide) (by simp) (by simp) (by decide)
  exact ⟨h.1, h.2.1, h.2.2.2.1, h.2.2.2.2⟩

/-- Distinctness of the bridge's extraction-failure message from the
cancellation message, for every engine error display. -/
theorem extract_failed_msg_ne_cancelled (s : String) :
    ("Failed to extract archive: " ++ s) ≠ "Operation cancelled" := by
  intro h
  have hlen := congrArg String.length h
  rw [String.length_append] at hlen
  have h27 : ("Failed to extract archive: " : String).length = 27 := rfl
  have h19 : ("Operation cancelled" : String).length = 19 := rfl
  omega

/-- Distinctness of the bridge's open-failure message from the cancellation
message, for every engine error display. -/
theorem open_failed_msg_ne_cancelled (s : String) :
    ("Failed to open archive: " ++ s) ≠ "Operation cancelled" := by
  intro h
  have hlen := congrArg String.length h
  rw [String.length_append] at hlen
  have h24 : ("Failed to open archive: " : String).length = 24 := rfl
  have h19 : ("Operation cancelled" : String).length = 19 := rfl
  omega

/-- C4: when `extractArchiveWithCallback` fails, a `Cancelled` outcome is
distinguishable from any other engine error: on `Error::Cancelled` the bridge
throws an exception whose message is exactly "Operation cancelled", while every
other engine error — extraction errors as well as open errors, the source of
`Corrupt` — is reported with a message that differs from it, and in all cases
the function returns false. -/
theorem extractArchiveWithCallback_cancelled_distinct
    (a o : String) (tok : Nat)
    (engineOpen : String → Except EngineError (List EntryInfo))
    (run : FlagSource → String → Except EngineError Unit)
    (disp : EngineError → String) :
    (∀ es, engineOpen a = .ok es →
      run (if tok = 0 then .fresh else .token tok) o = .error .cancelled →
      extractArchiveWithCallback (.ok a) (.ok o) (.ok ()) tok engineOpen run disp
        = ⟨false, [.engineOpen a, .engineExtractProgress o,
                   .throwExn runtimeExceptionClass "Operation cancelled"],
           some (if tok = 0 then .fresh else .token tok)⟩)
    ∧ (∀ es e, engineOpen a = .ok es → ¬(e = .cancelled) →
        run (if tok = 0 then .fresh else .token tok) o = .error e →
        extractArchiveWithCallback (.ok a) (.ok o) (.ok ()) tok engineOpen run disp
          = ⟨false, [.engineOpen a, .engineExtractProgress o,
                     .throwExn runtimeExceptionClass ("Failed to extract archive: " ++ disp e)],
             some (if tok = 0 then .fresh else .token tok)⟩
        ∧ ("Failed to extract archive: " ++ disp e) ≠ "Operation cancelled")
    ∧ (∀ e, engineOpen a = .error e →
        extractArchiveWithCallback (.ok a) (.ok o) (.ok ()) tok engineOpen run disp
          = ⟨false, [.engineOpen a,
                     .throwExn runtimeExceptionClass ("Failed to open archive: " ++ disp e)],
             some (if tok = 0 then .fresh else .token tok)⟩
        ∧ ("Failed to open archive: " ++ disp e) ≠ "Operation cancelled") := by
  refine ⟨?_, ?_, ?_⟩
  · intro es hopen hrun
    simp [extractArchiveWithCallback, hopen, hrun]
  · intro es e hopen hne hrun
    refine ⟨?_, extract_failed_msg_ne_cancelled (disp e)⟩
    cases e with
    | cancelled => exact absurd rfl hne
    | notFound => simp [extractArchiveWithCallback, hopen, hrun]
    | corrupt => simp [extractArchiveWithCallback, hopen, hrun]
    | io m => simp [extractArchiveWithCallback, hopen, hrun]
  · intro e hopen
    exact ⟨by simp [extractArchiveWithCallback, hopen], open_failed_msg_ne_cancelled (disp e)⟩

/-- Concrete instantiation of `extractArchiveWithCallback_cancelled_distinct`
at token handle 0: one run cancelled, one failing with an I/O error, and one
open failing with a corrupt archive. -/
theorem extractArchiveWithCallback_cancelled_distinct_witness :
    extractArchiveWithCallback (.ok "a.pf8") (.ok "out") (.ok ()) 0
        (fun _ => .ok []) (fun _ _ => .error .cancelled) (fun _ => "io fail")
      = ⟨false, [.engineOpen "a.pf8", .engineExtractProgress "out",
                 .throwExn runtimeExceptionClass "Operation cancelled"], some .fresh⟩
    ∧ extractArchiveWithCallback (.ok "a.pf8") (.ok "out") (.ok ()) 0
        (fun _ => .ok []) (fun _ _ => .error (.io "disk")) (fun _ => "io fail")
      = ⟨false, [.engineOpen "a.pf8", .engineExtractProgress "out",
                 .throwExn runtimeExceptionClass "Failed to extract archive: io fail"],
         some .fresh⟩
    ∧ ("Failed to extract archive: io fail" : String) ≠ "Operation cancelled"
    ∧ extractArchiveWithCallback (.ok "a.pf8") (.ok "out") (.ok ()) 0
        (fun _ => .error .corrupt) (fun _ _ => .ok ()) (fun _ => "corrupt table")
      = ⟨false, [.engineOpen "a.pf8",
                 .throwExn runtimeExceptionClass "Failed to open archive: corrupt table"],
         some .fresh⟩
    ∧ ("Failed to open archive: corrupt table" : String) ≠ "Operation cancelled" := by
  have h1 := (extractArchiveWithCallback_cancelled_distinct "a.pf8" "out" 0
    (fun _ => .ok []) (fun _ _ => .error .cancelled) (fun _ => "io fail")).1 [] rfl rfl
  have h2 := (extractArchiveWithCallback_cancelled_distinct "a.pf8" "out" 0
    (fun _ => .ok []) (fun _ _ => .error (.io "disk")) (fun _ => "io fail")).2.1
    [] (.io "disk") rfl (by decide) rfl
  have h3 := (extractArchiveWithCallback_cancelled_distinct "a.pf8" "out" 0
    (fun _ => .error .corrupt) (fun _ _ => .ok ()) (fun _ => "corrupt table")).2.2
    .corrupt rfl
  exact ⟨h1, h2.1, h2.2, h3.1, h3.2⟩

/-- Length of a built entry table: one record per file. -/
theorem buildTable_length (fs : List SrcFile) : ∀ off, (buildTable off fs).length = fs.length := by
  induction fs with
  | nil => intro off; rfl
  | cons f fs ih => intro off; simp [buildTable, ih]

/-- Sorting preserves the number of collected files. -/
theorem sortFiles_length (files : List SrcFile) : (sortFiles files).length = files.length :=
  (List.mergeSort_perm files _).length_eq

/-- C6: an explicit empty pattern list selects no files (the engine packs or
extracts nothing and an archive created from it has an empty entry table),
while the pattern-less operations select every file; at the bridge, the empty
pattern array and the absent pattern argument reach the engine as distinct
configurations (`some []` versus `none`). -/
theorem empty_vs_absent_pattern_list (files : List SrcFile) (path i o : String)
    (disp : EngineError → String) :
    selectByPatterns [] files = []
    ∧ matchesAny [] path = false
    ∧ (createFromDirWithPatterns [] files).table = []
    ∧ (createFromDir files).table.length = files.length
    ∧ createArchiveWithPatterns (.ok i) (.ok o) (.ok []) (fun _ _ _ => .ok ()) disp
        = (true, [.engineCreate i o (some [])])
    ∧ createArchive (.ok i) (.ok o) (fun _ _ => .ok ()) disp
        = (true, [.engineCreate i o none])
    ∧ extractArchiveWithPatterns (.ok i) (.ok o) (.ok []) (fun _ _ _ => .ok ()) disp
        = (true, [.engineExtract i o (some [])])
    ∧ extractArchive (.ok i) (.ok o) (fun _ _ => .ok ()) disp
        = (true, [.engineExtract i o none])
    ∧ (some ([] : List String)) ≠ (none : Option (List String)) := by
  refine ⟨?_, ?_, ?_, ?_, rfl, rfl, rfl, rfl, by simp⟩
  · simp [selectByPatterns, matchesAny]
  · simp [matchesAny]
  · simp [createFromDirWithPatterns, createFromDir, selectByPatterns, matchesAny, sortFiles,
      buildTable]
  · simp [createFromDir, buildTable_length, sortFiles_length]

/-- Concrete instantiation of `empty_vs_absent_pattern_list` on a two-file
tree. -/
theorem empty_vs_absent_pattern_list_witness :
    selectByPatterns [] [⟨"a.txt", [1]⟩, ⟨"b.bin", [2, 3]⟩] = []
    ∧ (createFromDirWithPatterns [] [⟨"a.txt", [1]⟩, ⟨"b.bin", [2, 3]⟩]).table = []
    ∧ (createFromDir [⟨"a.txt", [1]⟩, ⟨"b.bin", [2, 3]⟩]).table.length = 2
    ∧ createArchiveWithPatterns (.ok "in") (.ok "out") (.ok [])
        (fun _ _ _ => .ok ()) (fun _ => "")
        = (true, [.engineCreate "in" "out" (some [])])
    ∧ createArchive (.ok "in") (.ok "out") (fun _ _ => .ok ()) (fun _ => "")
        = (true, [.engineCreate "in" "out" none]) := by
  have h := empty_vs_absent_pattern_list [⟨"a.txt", [1]⟩, ⟨"b.bin", [2, 3]⟩] "p" "in" "out"
    (fun _ => "")
  exact ⟨h.1, h.2.2.1, h.2.2.2.1, h.2.2.2.2.1, h.2.2.2.2.2.1⟩


/-- Reading back a container built over any base offset recovers exactly the
files whose contents were concatenated after that base. -/
theorem buildTable_reads_back (fs : List SrcFile) : ∀ (pre : List Nat),
    ((buildTable pre.length fs).map fun e =>
        (⟨e.path, ((pre ++ (fs.map SrcFile.content).flatten).drop e.offset).take e.size⟩
          : SrcFile))
      = fs := by
  induction fs with
  | nil => intro pre; rfl
  | cons f fs ih =>
    intro pre
    simp only [buildTable, List.map_cons]
    congr 1
    · rw [List.flatten_cons, List.drop_left, List.take_left]
    · rw [List.flatten_cons, ← List.append_assoc,
        show pre.length + f.content.length = (pre ++ f.content).length from
          (List.length_append _ _).symm]
      exact ih (pre ++ f.content)

/-- Extracting an archive just created from a file list recovers the sorted
file list exactly. -/
theorem extractAllFiles_createFromDir (files : List SrcFile) :
    extractAllFiles (createFromDir files) = sortFiles files := by
  have h := buildTable_reads_back (sortFiles files) []
  simpa [extractAllFiles, createFromDir, readEntryData] using h

/-- C7: for every directory tree, creating an archive and extracting it yields
a tree whose set of (relative-path, content, size) triples equals the source
tree's, including the empty tree and trees with duplicate file sizes. -/
theorem create_extract_roundtrip (files : List SrcFile) (t : String × List Nat × Nat) :
    (t ∈ (extractAllFiles (createFromDir files)).map fileTriple
      ↔ t ∈ files.map fileTriple) := by
  rw [extractAllFiles_createFromDir]
  exact ((List.mergeSort_perm files _).map fileTriple).mem_iff

/-- Concrete instantiation of `create_extract_roundtrip` on a two-file tree
with distinct paths and duplicate-free contents. -/
theorem create_extract_roundtrip_witness :
    (("a", [1, 2], 2) : String × List Nat × Nat)
      ∈ (extractAllFiles (createFromDir [⟨"b", [3]⟩, ⟨"a", [1, 2]⟩])).map fileTriple :=
  (create_extract_roundtrip [⟨"b", [3]⟩, ⟨"a", [1, 2]⟩] ("a", [1, 2], 2)).mpr (by decide)

/-- Whitespace skipping is the identity when the head is not whitespace. -/
theorem skipWs_not_ws {c : Char} (l : List Char) (h : isWsCh c = false) :
    skipWs (c :: l) = c :: l := by
  simp [skipWs, h]

/-- A quoted run of plain characters parses to exactly the input after the
closing quote. -/
theorem jsonStrRest_append (s : List Char) :
    ∀ rest, (∀ c ∈ s, jsonPlainChar c = true) → jsonStrRest (s ++ '"' :: rest) = some rest := by
  induction s with
  | nil =>
    intro rest _
    rw [List.nil_append, jsonStrRest.eq_def]
    simp
  | cons c cs ih =>
    intro rest h
    have hc : jsonPlainChar c = true := h c (List.mem_cons_self c cs)
    have hq : ¬(c = '"') := by
      intro he; rw [he] at hc; exact absurd hc (by decide)
    have hb : ¬(c = '\\') := by
      intro he; rw [he] at hc; exact absurd hc (by decide)
    rw [List.cons_append, jsonStrRest.eq_def]
    simp only [hq, if_false, hb, hc, if_true]
    exact ih rest fun c' h' => h c' (List.mem_cons_of_mem _ h')

/-- Digit characters arise from digit values. -/
theorem digitChar_digit (m : Nat) (h : m < 10) : isDigitCh (digitChar m) = true := by
  interval_cases m <;> decide

/-- A nonzero digit value yields a character other than '0'. -/
theorem digitChar_ne_zero (m : Nat) (h0 : 0 < m) (h : m < 10) : ¬(digitChar m = '0') := by
  interval_cases m <;> decide

/-- Rendering zero under any fuel leaves the accumulator unchanged. -/
theorem natDecimalAux_zero (fuel : Nat) (acc : List Char) : natDecimalAux fuel 0 acc = acc := by
  cases fuel <;> rfl

/-- Structure of the accumulator-style decimal rendering of a positive number:
a leading nonzero digit followed by digits, in front of the accumulator. -/
theorem natDecimalAux_spec (fuel : Nat) : ∀ (n : Nat) (acc : List Char), n ≤ fuel → 0 < n →
    ∃ d ds, natDecimalAux fuel n acc = d :: (ds ++ acc) ∧ isDigitCh d = true ∧ ¬(d = '0')
      ∧ (∀ c ∈ ds, isDigitCh c = true) := by
  induction fuel with
  | zero => intro n acc h1 h2; omega
  | succ fuel ih =>
    intro n acc h1 h2
    obtain ⟨m, rfl⟩ : ∃ m, n = m + 1 := ⟨n - 1, by omega⟩
    have hstep : natDecimalAux (fuel + 1) (m + 1) acc
        = natDecimalAux fuel ((m + 1) / 10) (digitChar ((m + 1) % 10) :: acc) := rfl
    by_cases h10 : (m + 1) / 10 = 0
    · have hlt : m + 1 < 10 := by
        rcases Nat.lt_or_ge (m + 1) 10 with h | h
        · exact h
        · exact absurd h10 (by have := Nat.div_le_div_right (c := 10) h; simp at this; omega)
      have hmod : (m + 1) % 10 = m + 1 := Nat.mod_eq_of_lt hlt
      refine ⟨digitChar (m + 1), [], ?_, digitChar_digit _ hlt, digitChar_ne_zero _ h2 hlt, ?_⟩
      · rw [hstep, h10, natDecimalAux_zero, hmod]
        rfl
      · intro c hc; exact absurd hc (List.not_mem_nil c)
    · have hdivlt : (m + 1) / 10 < m + 1 := Nat.div_lt_self h2 (by omega)
      have hdivle : (m + 1) / 10 ≤ fuel := by omega
      obtain ⟨d, ds, heq, hd1, hd2, hds⟩ :=
        ih ((m + 1) / 10) (digitChar ((m + 1) % 10) :: acc) hdivle (Nat.pos_of_ne_zero h10)
      refine ⟨d, ds ++ [digitChar ((m + 1) % 10)], ?_, hd1, hd2, ?_⟩
      · rw [hstep, heq]; simp
      · intro c hc
        rcases List.mem_append.mp hc with h | h
        · exact hds c h
        · rw [List.mem_singleton.mp h]
          exact digitChar_digit _ (Nat.mod_lt _ (by omega))

/-- Structure of the decimal rendering: a digit head, digit tail, and a zero
head only for the single-character rendering of zero. -/
theorem natDecimal_spec (n : Nat) :
    ∃ d ds, natDecimal n = d :: ds ∧ isDigitCh d = true
      ∧ (∀ c ∈ ds, isDigitCh c = true) ∧ (d = '0' → ds = []) := by
  by_cases h : n = 0
  · exact ⟨'0', [], by simp [natDecimal, h], by decide, by simp, fun _ => rfl⟩
  · obtain ⟨d, ds, heq, hd1, hd2, hds⟩ :=
      natDecimalAux_spec n n [] (Nat.le_refl n) (Nat.pos_of_ne_zero h)
    refine ⟨d, ds, ?_, hd1, hds, fun h0 => absurd h0 hd2⟩
    rw [natDecimal, if_neg h, heq]
    simp

/-- A maximal digit run stops exactly at a non-digit boundary. -/
theorem dropDigits_append (ds : List Char) :
    ∀ rest, (∀ c ∈ ds, isDigitCh c = true) → numBoundary rest = true →
      dropDigits (ds ++ rest) = rest := by
  induction ds with
  | nil =>
    intro rest _ hb
    cases rest with
    | nil => rfl
    | cons c r =>
      have : isDigitCh c = false := by
        simp [numBoundary] at hb
        simp [hb.1]
      simp [dropDigits, this]
  | cons c cs ih =>
    intro rest h hb
    have hc : isDigitCh c = true := h c (List.mem_cons_self c cs)
    simp only [List.cons_append, dropDigits, hc, if_true]
    exact ih rest (fun c' h' => h c' (List.mem_cons_of_mem _ h')) hb

/-- A rendered decimal parses as a JSON integer part, stopping exactly at a
non-number boundary. -/
theorem jsonIntRest_decimal (n : Nat) (rest : List Char) (hb : numBoundary rest = true) :
    jsonIntRest (natDecimal n ++ rest) = some rest := by
  obtain ⟨d, ds, heq, hd, hds, hd0⟩ := natDecimal_spec n
  rw [heq]
  by_cases h0 : d = '0'
  · rw [hd0 h0, h0]
    simp only [List.cons_append, List.nil_append, jsonIntRest.eq_def, if_true]
  · rw [List.cons_append, jsonIntRest.eq_def]
    simp only [h0, if_false, hd, if_true]
    rw [dropDigits_append ds rest hds hb]

/-- Facts extracted from a non-number boundary head. -/
theorem numBoundary_head {c : Char} {r : List Char} (h : numBoundary (c :: r) = true) :
    isDigitCh c = false ∧ ¬(c = '.') ∧ ¬(c = 'e') ∧ ¬(c = 'E') := by
  simp only [numBoundary, Bool.not_eq_true', Bool.or_eq_false_iff] at h
  obtain ⟨⟨⟨h1, h2⟩, h3⟩, h4⟩ := h
  exact ⟨h1, by simpa using h2, by simpa using h3, by simpa using h4⟩

/-- The optional fraction part is empty at a non-number boundary. -/
theorem jsonFracRest_boundary (rest : List Char) (hb : numBoundary rest = true) :
    jsonFracRest rest = some rest := by
  cases rest with
  | nil => rfl
  | cons c r =>
    obtain ⟨_, h2, _, _⟩ := numBoundary_head hb
    simp [jsonFracRest.eq_def, h2]

/-- The optional exponent part is empty at a non-number boundary. -/
theorem jsonExpRest_boundary (rest : List Char) (hb : numBoundary rest = true) :
    jsonExpRest rest = some rest := by
  cases rest with
  | nil => rfl
  | cons c r =>
    obtain ⟨_, _, h3, h4⟩ := numBoundary_head hb
    simp [jsonExpRest.eq_def, h3, h4]

/-- A rendered decimal parses as a complete JSON number, stopping exactly at a
non-number boundary. -/
theorem jsonNumTail_decimal (n : Nat) (rest : List Char) (hb : numBoundary rest = true) :
    jsonNumTail (natDecimal n ++ rest) = some rest := by
  simp only [jsonNumTail]
  rw [jsonIntRest_decimal n rest hb]
  simp only [Option.bind_eq_bind, Option.some_bind]
  rw [jsonFracRest_boundary rest hb]
  simp only [Option.some_bind]
  exact jsonExpRest_boundary rest hb

/-- Digit heads are not whitespace and not any JSON structural opener. -/
theorem isDigitCh_head_facts {c : Char} (h : isDigitCh c = true) :
    isWsCh c = false ∧ ¬(c = '"') ∧ ¬(c = '[') ∧ ¬(c = '\x7b') ∧ ¬(c = '-') := by
  have hsp : ¬(c = ' ') := by intro he; rw [he] at h; exact absurd h (by decide)
  have hta : ¬(c = '\t') := by intro he; rw [he] at h; exact absurd h (by decide)
  have hnl : ¬(c = '\n') := by intro he; rw [he] at h; exact absurd h (by decide)
  have hcr : ¬(c = '\r') := by intro he; rw [he] at h; exact absurd h (by decide)
  refine ⟨by simp [isWsCh, hsp, hta, hnl, hcr], ?_, ?_, ?_, ?_⟩
  · intro he; rw [he] at h; exact absurd h (by decide)
  · intro he; rw [he] at h; exact absurd h (by decide)
  · intro he; rw [he] at h; exact absurd h (by decide)
  · intro he; rw [he] at h; exact absurd h (by decide)

/-- One unfolding of the item loop over a nonempty chunk list: parsing each
item chunk in turn, separated by commas, consumes the input up to the closing
character. -/
theorem jsonItemsRest_chain (p : List Char → Option (List Char)) (close : Char)
    (hws : isWsCh close = false) (hnc : ¬(close = ',')) :
    ∀ (chunks : List (List Char)) (extra : Nat) (rest : List Char), chunks ≠ [] →
      (∀ c ∈ chunks, ∀ suf, sepOrClose close suf = true → p (c ++ suf) = some suf) →
      jsonItemsRest p (chunks.length + extra + 1) close (joinChunks chunks ++ close :: rest)
        = some rest := by
  intro chunks
  induction chunks with
  | nil => intro extra rest hne _; exact absurd rfl hne
  | cons c cs ih =>
    intro extra rest _ hp
    cases cs with
    | nil =>
      have hpc := hp c (List.mem_cons_self c []) (close :: rest) (by simp [sepOrClose])
      rw [show ([c] : List (List Char)).length + extra + 1 = extra + 1 + 1 by
        simp [Nat.add_comm]]
      rw [show joinChunks [c] = c from rfl]
      simp only [jsonItemsRest]
      rw [hpc]
      simp only [Option.some_bind]
      rw [skipWs_not_ws rest hws]
      simp [hnc]
    | cons c' cs' =>
      have hj : joinChunks (c :: c' :: cs') = c ++ ',' :: joinChunks (c' :: cs') := rfl
      have hlen : (c :: c' :: cs').length + extra + 1
          = ((c' :: cs').length + extra + 1) + 1 := by
        simp only [List.length_cons]
        omega
      rw [hj, hlen]
      have hin : (c ++ ',' :: joinChunks (c' :: cs')) ++ close :: rest
          = c ++ (',' :: (joinChunks (c' :: cs') ++ close :: rest)) := by
        simp [List.append_assoc]
      rw [hin]
      have hpc := hp c (List.mem_cons_self _ _)
        (',' :: (joinChunks (c' :: cs') ++ close :: rest)) (by simp [sepOrClose])
      simp only [jsonItemsRest]
      rw [hpc]
      simp only [Option.some_bind]
      rw [skipWs_not_ws _ (by decide : isWsCh ',' = false)]
      simp only [reduceIte]
      exact ih extra rest (by simp) fun c2 h2 suf hs => hp c2 (List.mem_cons_of_mem _ h2) suf hs

/-- Suffixes beginning with a comma or closing brace are non-number
boundaries. -/
theorem sepOrClose_numBoundary {suf : List Char} (h : sepOrClose '\x7d' suf = true) :
    numBoundary suf = true := by
  cases suf with
  | nil => rfl
  | cons c t =>
    simp only [sepOrClose, Bool.or_eq_true, decide_eq_true_eq] at h
    rcases h with h | h <;> rw [h] <;> rfl

/-- Parse of the `"name": "<path>"` member of an entry object. -/
theorem jsonMemberRest_name (dv : Nat) (path suf : List Char)
    (hsafe : ∀ c ∈ path, jsonPlainChar c = true) :
    jsonMemberRest (fun s => jsonValueRest (dv + 1) s)
      ('"' :: 'n' :: 'a' :: 'm' :: 'e' :: '"' :: ':' :: '"' :: (path ++ '"' :: suf))
      = some suf := by
  have h1 : jsonStrRest ('n' :: 'a' :: 'm' :: 'e' :: '"' :: ':' :: '"' :: (path ++ '"' :: suf))
      = some (':' :: '"' :: (path ++ '"' :: suf)) := by
    simpa using jsonStrRest_append ['n', 'a', 'm', 'e'] (':' :: '"' :: (path ++ '"' :: suf))
      (by decide)
  have h2 : jsonValueRest (dv + 1) ('"' :: (path ++ '"' :: suf)) = some suf := by
    simp only [jsonValueRest]
    rw [skipWs_not_ws _ (by decide : isWsCh '"' = false)]
    simp only [reduceIte]
    exact jsonStrRest_append path suf hsafe
  rw [jsonMemberRest.eq_def]
  rw [skipWs_not_ws _ (by decide : isWsCh '"' = false)]
  simp only [h1, Option.some_bind]
  rw [skipWs_not_ws _ (by decide : isWsCh ':' = false)]
  exact h2

/-- Parse of the `"size": <decimal>` member of an entry object. -/
theorem jsonMemberRest_size (dv n : Nat) (suf : List Char) (hb : numBoundary suf = true) :
    jsonMemberRest (fun s => jsonValueRest (dv + 1) s)
      ('"' :: 's' :: 'i' :: 'z' :: 'e' :: '"' :: ':' :: (natDecimal n ++ suf)) = some suf := by
  have h1 : jsonStrRest ('s' :: 'i' :: 'z' :: 'e' :: '"' :: ':' :: (natDecimal n ++ suf))
      = some (':' :: (natDecimal n ++ suf)) := by
    simpa using jsonStrRest_append ['s', 'i', 'z', 'e'] (':' :: (natDecimal n ++ suf))
      (by decide)
  have h2 : jsonValueRest (dv + 1) (natDecimal n ++ suf) = some suf := by
    obtain ⟨d0, ds, heq, hd, hds, hd0⟩ := natDecimal_spec n
    obtain ⟨hws, hq, hbr, hcb, hmn⟩ := isDigitCh_head_facts hd
    rw [heq, List.cons_append]
    simp only [jsonValueRest]
    rw [skipWs_not_ws _ hws]
    simp only [hq, hbr, hcb, hmn, if_false, hd, if_true]
    rw [← List.cons_append, ← heq]
    exact jsonNumTail_decimal n suf hb
  rw [jsonMemberRest.eq_def]
  rw [skipWs_not_ws _ (by decide : isWsCh '"' = false)]
  simp only [h1, Option.some_bind]
  rw [skipWs_not_ws _ (by decide : isWsCh ':' = false)]
  exact h2

/-- Character-level decomposition of a serialized entry object. -/
theorem entryJson_data (e : EntryInfo) :
    (entryJson e).data
      = '\x7b' :: '"' :: 'n' :: 'a' :: 'm' :: 'e' :: '"' :: ':' :: '"' ::
          (e.path.data ++ ('"' :: ',' :: '"' :: 's' :: 'i' :: 'z' :: 'e' :: '"' :: ':' ::
            (natDecimal e.size ++ ['\x7d']))) := by
  simp [entryJson, String.data_append, natDecimalStr, List.append_assoc]

/-- One unfolding of the value parse at an object whose first member starts at
a non-brace head. -/
theorem jsonValueRest_object_step (dv : Nat) (c : Char) (T rest : List Char)
    (hw : isWsCh c = false) (hc : ¬(c = '\x7d'))
    (h : jsonItemsRest (jsonMemberRest fun s => jsonValueRest dv s) ((c :: T).length + 1)
      '\x7d' (c :: T) = some rest) :
    jsonValueRest (dv + 1) ('\x7b' :: c :: T) = some rest := by
  rw [jsonValueRest.eq_def]
  simp only [reduceIte, Char.reduceEq]
  rw [skipWs_not_ws _ (by decide : isWsCh '\x7b' = false)]
  simp only [reduceIte, Char.reduceEq]
  rw [skipWs_not_ws _ hw]
  simp [hc]
  simpa using h

/-- One unfolding of the value parse at an array whose first element starts at
a non-bracket head. -/
theorem jsonValueRest_array_step (dv : Nat) (c : Char) (T rest : List Char)
    (hw : isWsCh c = false) (hc : ¬(c = ']'))
    (h : jsonItemsRest (fun s => jsonValueRest dv s) ((c :: T).length + 1) ']' (c :: T)
      = some rest) :
    jsonValueRest (dv + 1) ('[' :: c :: T) = some rest := by
  rw [jsonValueRest.eq_def]
  simp only [reduceIte, Char.reduceEq]
  rw [skipWs_not_ws _ (by decide : isWsCh '[' = false)]
  simp only [reduceIte, Char.reduceEq]
  rw [skipWs_not_ws _ hw]
  simp [hc]
  simpa using h

/-- A serialized entry object parses as one JSON value, consuming exactly its
own characters, whenever the entry path contains only plain characters. -/
theorem jsonValueRest_entryJson (d : Nat) (e : EntryInfo) (suf : List Char)
    (hsafe : jsonSafeString e.path = true) :
    jsonValueRest (d + 2) ((entryJson e).data ++ suf) = some suf := by
  have hps : ∀ c ∈ e.path.data, jsonPlainChar c = true := fun c hc =>
    List.all_eq_true.mp hsafe c hc
  have hinput : (entryJson e).data ++ suf
      = '\x7b' :: '"' :: ('n' :: 'a' :: 'm' :: 'e' :: '"' :: ':' :: '"' ::
          (e.path.data ++ ('"' :: ',' :: '"' :: 's' :: 'i' :: 'z' :: 'e' :: '"' :: ':' ::
            (natDecimal e.size ++ '\x7d' :: suf)))) := by
    rw [entryJson_data]
    simp [List.append_assoc]
  rw [hinput]
  apply jsonValueRest_object_step (d + 1) '"' _ suf (by decide) (by decide)
  have hRJ : ('"' :: 'n' :: 'a' :: 'm' :: 'e' :: '"' :: ':' :: '"' ::
        (e.path.data ++ ('"' :: ',' :: '"' :: 's' :: 'i' :: 'z' :: 'e' :: '"' :: ':' ::
          (natDecimal e.size ++ '\x7d' :: suf))))
      = joinChunks ['"' :: 'n' :: 'a' :: 'm' :: 'e' :: '"' :: ':' :: '"' ::
            (e.path.data ++ ['"']),
          '"' :: 's' :: 'i' :: 'z' :: 'e' :: '"' :: ':' :: natDecimal e.size]
        ++ '\x7d' :: suf := by
    simp [joinChunks, List.append_assoc]
  rw [hRJ]
  obtain ⟨extra, hextra⟩ : ∃ extra,
      (joinChunks ['"' :: 'n' :: 'a' :: 'm' :: 'e' :: '"' :: ':' :: '"' ::
            (e.path.data ++ ['"']),
          '"' :: 's' :: 'i' :: 'z' :: 'e' :: '"' :: ':' :: natDecimal e.size]
        ++ '\x7d' :: suf).length + 1 = 2 + extra + 1 := by
    refine ⟨(joinChunks ['"' :: 'n' :: 'a' :: 'm' :: 'e' :: '"' :: ':' :: '"' ::
          (e.path.data ++ ['"']),
        '"' :: 's' :: 'i' :: 'z' :: 'e' :: '"' :: ':' :: natDecimal e.size]
      ++ '\x7d' :: suf).length - 2, ?_⟩
    have hge : 2 ≤ (joinChunks ['"' :: 'n' :: 'a' :: 'm' :: 'e' :: '"' :: ':' :: '"' ::
          (e.path.data ++ ['"']),
        '"' :: 's' :: 'i' :: 'z' :: 'e' :: '"' :: ':' :: natDecimal e.size]
      ++ '\x7d' :: suf).length := by
      simp only [joinChunks, List.length_append, List.length_cons]
      omega
    omega
  rw [hextra]
  apply jsonItemsRest_chain _ '\x7d' (by decide) (by decide) _ extra suf (by simp)
  intro ch hc suf' hs
  simp only [List.mem_cons, List.not_mem_nil, or_false] at hc
  rcases hc with hc | hc
  · subst hc
    have hshape : ('"' :: 'n' :: 'a' :: 'm' :: 'e' :: '"' :: ':' :: '"' ::
          (e.path.data ++ ['"'])) ++ suf'
        = '"' :: 'n' :: 'a' :: 'm' :: 'e' :: '"' :: ':' :: '"' ::
          (e.path.data ++ '"' :: suf') := by
      simp [List.append_assoc]
    rw [hshape]
    exact jsonMemberRest_name d e.path.data suf' hps
  · subst hc
    have hshape : ('"' :: 's' :: 'i' :: 'z' :: 'e' :: '"' :: ':' :: natDecimal e.size) ++ suf'
        = '"' :: 's' :: 'i' :: 'z' :: 'e' :: '"' :: ':' :: (natDecimal e.size ++ suf') := by
      simp
    rw [hshape]
    exact jsonMemberRest_size d e.size suf' (sepOrClose_numBoundary hs)

/-- Character-level view of the comma join used by `listArchive`. -/
theorem joinSep_comma_data (ss : List String) :
    (joinSep "," ss).data = joinChunks (ss.map String.data) := by
  induction ss with
  | nil => rfl
  | cons s rest ih =>
    cases rest with
    | nil => rfl
    | cons s' rest' =>
      show (s ++ "," ++ joinSep "," (s' :: rest')).data = _
      rw [String.data_append, String.data_append, ih]
      simp [joinChunks]

/-- A nonempty chunk list is at most one longer than its comma join. -/
theorem joinChunks_length_ge (chunks : List (List Char)) :
    (∀ c ∈ chunks, c ≠ []) → chunks.length ≤ (joinChunks chunks).length + 1 := by
  induction chunks with
  | nil => intro _; simp [joinChunks]
  | cons c cs ih =>
    intro h
    cases cs with
    | nil => simp [joinChunks]
    | cons c' cs' =>
      have hc : c ≠ [] := h c (List.mem_cons_self c _)
      have hclen : 1 ≤ c.length := by
        cases c with
        | nil => exact absurd rfl hc
        | cons x xs => simp
      have hind := ih fun x hx => h x (List.mem_cons_of_mem _ hx)
      simp only [joinChunks, List.length_append, List.length_cons] at hind ⊢
      omega

/-- The comma join of chunk lists starting with a cons chunk starts with that
chunk's head. -/
theorem joinChunks_head (x : Char) (xs : List Char) (cs : List (List Char)) :
    ∃ t, joinChunks ((x :: xs) :: cs) = x :: t := by
  cases cs with
  | nil => exact ⟨xs, rfl⟩
  | cons c' cs' => exact ⟨xs ++ ',' :: joinChunks (c' :: cs'), by simp [joinChunks]⟩

/-- Character-level decomposition of the whole listing document. -/
theorem listJson_data (entries : List EntryInfo) :
    (listJson entries).data
      = '[' :: (joinChunks (entries.map fun e => (entryJson e).data) ++ [']']) := by
  show ("[" ++ joinSep "," (entries.map entryJson) ++ "]").data = _
  rw [String.data_append, String.data_append, joinSep_comma_data, List.map_map]
  rfl

/-- Full parse of the listing document for safe paths: the parser consumes the
entire document exactly. -/
theorem jsonValueRest_listJson (entries : List EntryInfo)
    (hsafe : entries.all (fun e => jsonSafeString e.path) = true) :
    jsonValueRest ((listJson entries).data.length + 1) (listJson entries).data = some [] := by
  cases entries with
  | nil => decide
  | cons e0 es =>
    have hsafes : ∀ e ∈ (e0 :: es), jsonSafeString e.path = true := fun e he =>
      List.all_eq_true.mp hsafe e he
    have hne : ∀ ch ∈ ((e0 :: es).map fun e => (entryJson e).data), ch ≠ [] := by
      intro ch hch
      obtain ⟨e, he, rfl⟩ := List.mem_map.mp hch
      rw [entryJson_data]
      simp
    obtain ⟨E, hE⟩ : ∃ E, (entryJson e0).data = '\x7b' :: E := ⟨_, entryJson_data e0⟩
    have hmap : ((e0 :: es).map fun e => (entryJson e).data)
        = ('\x7b' :: E) :: (es.map fun e => (entryJson e).data) := by
      simp [hE]
    obtain ⟨t, ht⟩ := joinChunks_head '\x7b' E (es.map fun e => (entryJson e).data)
    rw [listJson_data, hmap, ht]
    have hlen : (('[' :: (('\x7b' :: t) ++ [']'])) : List Char).length + 1
        = (t.length + 3) + 1 := by
      simp
    rw [hlen, List.cons_append]
    apply jsonValueRest_array_step (t.length + 3) '\x7b' (t ++ [']']) [] (by decide) (by decide)
    rw [← List.cons_append, ← ht]
    have hne' : ∀ ch ∈ (('\x7b' :: E) :: (es.map fun e => (entryJson e).data)), ch ≠ [] :=
      fun ch hch => hne ch (by rw [hmap]; exact hch)
    obtain ⟨extra, hextra⟩ : ∃ extra,
        ((joinChunks (('\x7b' :: E) :: (es.map fun e => (entryJson e).data)) ++ [']']).length + 1)
          = (('\x7b' :: E) :: (es.map fun e => (entryJson e).data)).length + extra + 1 := by
      have hb := joinChunks_length_ge _ hne'
      refine ⟨(joinChunks (('\x7b' :: E) :: (es.map fun e => (entryJson e).data))
        ++ [']']).length
          - (('\x7b' :: E) :: (es.map fun e => (entryJson e).data)).length, ?_⟩
      simp only [List.length_append, List.length_cons, List.length_nil] at hb ⊢
      omega
    rw [hextra]
    apply jsonItemsRest_chain _ ']' (by decide) (by decide) _ extra [] (by simp) ?_
    intro ch hch suf' hs
    have hch' : ch ∈ ((e0 :: es).map fun e => (entryJson e).data) := by
      rw [hmap]; exact hch
    obtain ⟨e, he, rfl⟩ := List.mem_map.mp hch'
    exact jsonValueRest_entryJson (t.length + 1) e suf' (hsafes e he)

/-- C3 (amended): for every archive whose entry paths contain no character
requiring JSON escaping (quote, backslash, or control character), `listArchive`
returns exactly the JSON document with one object per entry in table order, and
that document is valid JSON. -/
theorem listArchive_json_valid_for_safe_paths (p : String) (entries : List EntryInfo)
    (engineOpen : String → Except EngineError (List EntryInfo))
    (newString : String → Except String Unit) (disp : EngineError → String)
    (hopen : engineOpen p = .ok entries) (hnew : newString (listJson entries) = .ok ())
    (hsafe : entries.all (fun e => jsonSafeString e.path) = true) :
    listArchive (.ok p) engineOpen newString disp = (some (listJson entries), [.engineOpen p])
    ∧ isValidJson (listJson entries) = true := by
  constructor
  · simp [listArchive, hopen, hnew]
  · have hkey := jsonValueRest_listJson entries hsafe
    simp only [isValidJson, hkey]
    rfl

/-- Concrete instantiation of `listArchive_json_valid_for_safe_paths` on a
two-entry table. -/
theorem listArchive_json_valid_for_safe_paths_witness :
    listArchive (.ok "a.pf8") (fun _ => .ok [⟨"dir/a.txt", 31⟩, ⟨"b", 0⟩]) (fun _ => .ok ())
        (fun _ => "")
      = (some (listJson [⟨"dir/a.txt", 31⟩, ⟨"b", 0⟩]), [.engineOpen "a.pf8"])
    ∧ isValidJson (listJson [⟨"dir/a.txt", 31⟩, ⟨"b", 0⟩]) = true :=
  listArchive_json_valid_for_safe_paths "a.pf8" [⟨"dir/a.txt", 31⟩, ⟨"b", 0⟩]
    (fun _ => .ok [⟨"dir/a.txt", 31⟩, ⟨"b", 0⟩]) (fun _ => .ok ()) (fun _ => "")
    rfl rfl (by decide)

/-- C3 counterexample: an entry path containing a double quote makes the
listing string invalid JSON, since the bridge performs no escaping. -/
theorem listArchive_json_invalid_for_quote_path :
    listArchive (.ok "a.pf8") (fun _ => .ok [⟨"a\"b", 1⟩]) (fun _ => .ok ()) (fun _ => "")
      = (some (listJson [⟨"a\"b", 1⟩]), [.engineOpen "a.pf8"])
    ∧ isValidJson (listJson [⟨"a\"b", 1⟩]) = false :=
  ⟨rfl, by decide⟩
